import Mathlib

/-!
# NTRT-Scanner-US: verification of the earnings-scanner pipeline

A shallow embedding, in Lean 4, of the core logic of `src/main.py`:

* the Yahoo scraping adapter `get_earnings_tickers_yahoo` (its post-parsing
  symbol processing, lines 30-72),
* the Finnhub API adapter `get_earnings_tickers_finnhub` (lines 74-98),
* the acquisition coordinator `get_earnings_tickers` (lines 100-115),
* the enrichment filter `filter_us_ep_candidates` (lines 117-154),
* the ranking step `sort_values(...).head(10)` (line 182),
* the notification sender `send_to_discord` (lines 156-167),
* the `__main__` control flow (lines 169-212).

Network I/O, HTML parsing and JSON decoding are at the boundary of the
embedding: each adapter is modelled as a function of the already-parsed data
it extracts from the provider responses, with the distinguished failure modes
(blocked request, missing table/column, HTTP error, raised exception)
represented explicitly.  Python numbers are modelled as `ℚ`, Python `None` as
`Option.none`, and Python string falsiness (`if not s:`) explicitly.
-/

namespace NTRT

/-- `'.' in symbol`, i.e. the regex test `str.contains(r'\.', na=False)`
applied to a symbol string (lines 55 and 90 of `src/main.py`). -/
def containsDot (s : String) : Bool := s.toList.contains '.'

/-- First-occurrence deduplication with an accumulator of already-seen
symbols; `uniqueKeepFirst` below models pandas `Series.unique()`, which keeps
the first occurrence of each value in order. -/
def uniqueAux : List String → List String → List String
  | [], _ => []
  | a :: l, seen => if a ∈ seen then uniqueAux l seen else a :: uniqueAux l (a :: seen)

/-- pandas `.unique().tolist()`: deduplicate, keeping first occurrences in
order. -/
def uniqueKeepFirst (l : List String) : List String := uniqueAux l []

/-- Python `set.update(new)` on the accumulator `tickers` (line 56): add the
elements of `new` that are not already present.  A Python set's iteration
order is unspecified; the model keeps insertion order, which does not affect
the set's contents. -/
def setUpdate (acc new : List String) : List String :=
  acc ++ uniqueKeepFirst (new.filter (fun s => ¬ s ∈ acc))

/-- The symbols one calendar date contributes in the Yahoo adapter
(lines 40-61).  The input is the `Symbol` column of the first parsed HTML
table: `none` collapses every zero-contribution case of the source — request
exception, block-page marker or non-200 status (line 44), `read_html`
raising `ValueError` (line 57), no tables, or a first table without a
`Symbol` column (line 53).  On `some col` the source filters out symbols
containing `'.'` and deduplicates with `unique()` (line 55). -/
def dateSymbols : Option (List String) → List String
  | none => []
  | some col => uniqueKeepFirst (col.filter (fun s => !containsDot s))

/-- `get_earnings_tickers_yahoo` (lines 9-72), modelled on the parsed
`Symbol` columns of the dates it visits (the source visits exactly
`[start_date, end_date]`; the model allows any list of dates).  Symbols are
accumulated into the set `tickers`; the function returns the set as a list
if it is non-empty and Python `None` otherwise (lines 68-72).  A failure of
the cookie warm-up (outer `except`, line 65) leaves the set empty and is
subsumed by every date contributing `none`. -/
def get_earnings_tickers_yahoo (dates : List (Option (List String))) :
    Option (List String) :=
  let tickers := dates.foldl (fun acc d => setUpdate acc (dateSymbols d)) []
  if tickers.isEmpty then none else some tickers

/-- Python falsiness of an optional string: `None` and `""` are falsy.
Used by `if not api_key:` (line 77) and `if not webhook_url:` (line 159). -/
def pyStrFalsy : Option String → Bool
  | none => true
  | some s => s.isEmpty

/-- What the Finnhub request yields, as seen after JSON decoding:
`httpError` collapses a non-200 status (line 93) and a request exception
(line 95); `json none` is a 200 body whose `earningsCalendar` key is missing
or whose rows have no `symbol` column; `json (some syms)` is the `symbol`
column of the decoded `earningsCalendar` rows. -/
inductive FinnhubResponse where
  | httpError
  | json (symbols : Option (List String))
deriving DecidableEq

/-- `get_earnings_tickers_finnhub` (lines 74-98): without a (truthy) API key
it returns `[]` before any network call (lines 77-79); on HTTP/requests
failure it returns `[]`; on success it keeps the rows only when the frame is
non-empty (`not df.empty`, line 88), drops symbols containing `'.'` and
deduplicates (line 90); every fall-through path returns `[]` (line 98). -/
def get_earnings_tickers_finnhub (api_key : Option String)
    (resp : FinnhubResponse) : List String :=
  if pyStrFalsy api_key then []
  else
    match resp with
    | .httpError => []
    | .json none => []
    | .json (some syms) =>
        if syms.isEmpty then []
        else uniqueKeepFirst (syms.filter (fun s => !containsDot s))

/-- The fallback branch of `get_earnings_tickers` (lines 107-115),
abstracted over the primary adapter's result: `tickers` is the Yahoo result
(`None` or a list); `if not tickers:` replaces it by the Finnhub result.
Python `not` is true on `None` and on an empty list alike. -/
def coordinate (primary : Option (List String)) (secondary : List String) :
    List String :=
  match primary with
  | none => secondary
  | some l => if l.isEmpty then secondary else l

/-- `get_earnings_tickers` (lines 100-115): try Yahoo first and fall back to
Finnhub when the Yahoo result is falsy.  The date-window computation of
lines 103-105 is modelled separately by `windowStart`/`windowEnd`. -/
def get_earnings_tickers (finnhub_key : Option String)
    (yahooDates : List (Option (List String))) (resp : FinnhubResponse) :
    List String :=
  coordinate (get_earnings_tickers_yahoo yahooDates)
    (get_earnings_tickers_finnhub finnhub_key resp)

/-- Seconds per calendar day. -/
def secondsPerDay : ℤ := 86400

/-- `datetime.now(timezone.utc) - timedelta(hours=5)` (line 103): the current
UTC time, in seconds since the epoch, shifted back five hours to the fixed
UTC-5 reference clock.  No DST correction is applied. -/
def refNow (utcNow : ℤ) : ℤ := utcNow - 5 * 3600

/-- The calendar date (as a day index since the epoch) of an instant, i.e.
what `strftime('%Y-%m-%d')` renders: floor division of the timestamp by the
day length. -/
def dateOf (t : ℤ) : ℤ := t / secondsPerDay

/-- `start_date = (today - timedelta(days=1)).strftime(...)` (line 104). -/
def windowStart (utcNow : ℤ) : ℤ := dateOf (refNow utcNow - secondsPerDay)

/-- `end_date = today.strftime(...)` (line 105). -/
def windowEnd (utcNow : ℤ) : ℤ := dateOf (refNow utcNow)

/-- The fields `filter_us_ep_candidates` reads from `yf.Ticker(t).info`
(lines 124-144): each may be absent (`info.get(...)` returning `None`).
Python floats are modelled as `ℚ`. -/
structure TickerInfo where
  revenueGrowth : Option ℚ
  marketCap : Option ℚ
  averageVolume : Option ℚ
  shortName : Option String
deriving DecidableEq

/-- The outcome of `stock = yf.Ticker(ticker); info = stock.info` for one
ticker: either the lookup raises (caught by the `except` at line 149) or it
yields a metadata record. -/
inductive Fetch where
  | raises
  | info (i : TickerInfo)
deriving DecidableEq

/-- The dictionary appended to `ep_list` on a pass (lines 142-148), one row
of the returned DataFrame. -/
structure CandidateRecord where
  ticker : String
  name : String
  yoyPct : ℚ
  marketCapB : ℚ
  avgVolK : ℚ
deriving DecidableEq

/-- Python `round` to the nearest integer, ties to even (banker's
rounding). -/
def pyRoundInt (q : ℚ) : ℤ :=
  let f : ℤ := ⌊q⌋
  let frac : ℚ := q - f
  if frac < 1/2 then f
  else if 1/2 < frac then f + 1
  else if f % 2 = 0 then f else f + 1

/-- Python `round(q, nd)` for `nd ≥ 0` digits, on exact rationals. -/
def pyRound (q : ℚ) (nd : ℕ) : ℚ :=
  (pyRoundInt (q * 10 ^ nd) : ℚ) / 10 ^ nd

/-- The body of the per-ticker loop of `filter_us_ep_candidates`
(lines 123-150): the three threshold guards in source order, each
short-circuiting via `continue` —
`rev_growth is None or rev_growth < 0.39` (line 129),
`market_cap is None or market_cap > max_cap` (line 134),
`vol is None or vol > max_vol` (line 139) —
then the record construction of lines 142-148; a raised lookup is caught
(`except Exception: pass`, line 149) and contributes nothing. -/
def processTicker (ticker : String) (f : Fetch) (max_cap max_vol : ℚ) :
    Option CandidateRecord :=
  match f with
  | .raises => none
  | .info i =>
      match i.revenueGrowth with
      | none => none
      | some rev_growth =>
          if rev_growth < 39/100 then none
          else
            match i.marketCap with
            | none => none
            | some market_cap =>
                if max_cap < market_cap then none
                else
                  match i.averageVolume with
                  | none => none
                  | some vol =>
                      if max_vol < vol then none
                      else
                        some { ticker := ticker
                               name := i.shortName.getD ticker
                               yoyPct := pyRound (rev_growth * 100) 1
                               marketCapB := pyRound (market_cap / 1000000000) 2
                               avgVolK := pyRound (vol / 1000) 1 }

/-- `filter_us_ep_candidates(tickers, max_cap, max_vol)` (lines 117-154),
modelled over the per-ticker metadata oracle `fetch`.  The rows of the
returned `pd.DataFrame(ep_list)` keep the append order; the fixed
`time.sleep(0.2)` after every lookup (line 152) has no effect on the
result. -/
def filter_us_ep_candidates (fetch : String → Fetch) (tickers : List String)
    (max_cap max_vol : ℚ) : List CandidateRecord :=
  tickers.filterMap (fun t => processTicker t (fetch t) max_cap max_vol)

/-- One step of the insertion sort numpy's `argsort(kind='quicksort')`
performs on arrays of at most 16 elements: the new element is placed after
every element whose key is not greater, so equal keys keep their arrival
order. -/
def insertAsc (key : α → ℚ) (a : α) : List α → List α
  | [] => [a]
  | b :: l => if key a < key b then a :: b :: l else b :: insertAsc key a l

/-- Stable ascending insertion sort by `key`, the elements inserted left to
right.  This is exactly what numpy `argsort(kind='quicksort')` (introsort)
runs on arrays of at most 16 elements, where no partitioning happens; it is
NOT what introsort does on larger arrays. -/
def insertionSortAsc (key : α → ℚ) (l : List α) : List α :=
  l.foldl (fun acc a => insertAsc key a acc) []

/-- numpy `argsort(kind='quicksort')`, i.e. introsort with its 16-element
partitioning cutoff.  Arrays of at most 16 elements undergo no partitioning
and are sorted by the plain, stable insertion sort, modelled exactly.  For
larger arrays introsort partitions, which can reorder equal keys — numpy
documents this kind as not stable — so the model leaves the large-array
behavior as the parameter `big`, about which the theorems assume only the
documented contract `SortsAscending` (an ascending-sorted permutation,
stability NOT included). -/
def npArgsortAsc (big : List α → List α) (key : α → ℚ) (l : List α) :
    List α :=
  if l.length ≤ 16 then insertionSortAsc key l else big l

/-- What numpy documents about `argsort(kind='quicksort')` on arrays of any
size: the output is an ascending-sorted permutation of the input.  Tie
order is deliberately not part of this contract. -/
def SortsAscending (key : α → ℚ) (big : List α → List α) : Prop :=
  ∀ l : List α, (big l).Perm l ∧ (big l).Pairwise (fun x y => key x ≤ key y)

/-- `df.sort_values(by=key, ascending=False)` (line 182).  pandas
`nargsort` reverses the rows, argsorts them ascending with the requested
kind (here the default `quicksort`, i.e. `npArgsortAsc`), and reverses the
resulting indexer again; row order on equal keys is therefore preserved
exactly when the underlying argsort is stable. -/
def sort_values_desc (big : List α → List α) (key : α → ℚ) (l : List α) :
    List α :=
  (npArgsortAsc big key l.reverse).reverse

/-- `df_ep.sort_values(by='YoY(%)', ascending=False).head(10)` (line 182),
parameterized like `npArgsortAsc` over the unspecified large-array argsort
behavior. -/
def rank (big : List CandidateRecord → List CandidateRecord)
    (candidates : List CandidateRecord) : List CandidateRecord :=
  (sort_values_desc big (fun c => c.yoyPct) candidates).take 10

/-- Insertion placing the new element BEFORE every equal key.  The result
is still an ascending-sorted permutation — everything the quicksort kind
guarantees — but ties come out in reversed arrival order: one admissible
behavior for the unspecified large-array branch of `npArgsortAsc`. -/
def insertAscFlip (key : α → ℚ) (a : α) : List α → List α
  | [] => [a]
  | b :: l => if key a ≤ key b then a :: b :: l else b :: insertAscFlip key a l

/-- Ascending sort built from `insertAscFlip`: sorted and a permutation,
but tie-reversing. -/
def insertionSortAscFlip (key : α → ℚ) (l : List α) : List α :=
  l.foldl (fun acc a => insertAscFlip key a acc) []

/-- A tie-reversing instantiation of the large-array argsort parameter for
candidate rows. -/
def bigFlip : List CandidateRecord → List CandidateRecord :=
  insertionSortAscFlip (fun c => c.yoyPct)

/-- A tie-preserving (fully stable) instantiation of the large-array
argsort parameter for candidate rows. -/
def bigStable : List CandidateRecord → List CandidateRecord :=
  insertionSortAsc (fun c => c.yoyPct)

/-- The truncation marker appended at line 165. -/
def truncationSuffix : String := "\n...(名單過長已截斷)"

/-- `send_to_discord(content)` (lines 156-167), as a function of the
`DISCORD_WEBHOOK_URL` environment value: the result is the posted payload
string, or `none` when nothing is posted (`if not webhook_url: return`,
lines 159-161).  Content longer than 1950 characters is clipped to its
first 1950 characters and the marker is appended (lines 164-165). -/
def send_to_discord (webhook_url : Option String) (content : String) :
    Option String :=
  if pyStrFalsy webhook_url then none
  else if 1950 < content.length then some (content.take 1950 ++ truncationSuffix)
  else some content

/-- The distinct terminal outcomes of the `__main__` block
(lines 169-212). -/
inductive RunOutcome where
  | startupAbort
  | noData
  | noCandidates
  | shortlist (ranked : List CandidateRecord)
deriving DecidableEq

/-- `true` exactly on the startup-abort outcome. -/
def RunOutcome.isStartupAbort : RunOutcome → Bool
  | .startupAbort => true
  | _ => false

/-- The `__main__` control flow (lines 169-212): read `FINNHUB_API_KEY`
(which may be absent, line 170), acquire tickers through the two-engine
coordinator (line 175), and branch on `if tickers:` (line 177) and
`if not df_ep.empty:` (line 180).  The script contains no abort path: no
credential check terminates the process.  `big` is the unspecified
large-array argsort behavior threaded into the ranking step. -/
def runMain (big : List CandidateRecord → List CandidateRecord)
    (finnhub_key : Option String)
    (yahooDates : List (Option (List String))) (resp : FinnhubResponse)
    (fetch : String → Fetch) : RunOutcome :=
  let tickers := get_earnings_tickers finnhub_key yahooDates resp
  if tickers.isEmpty then .noData
  else
    let df_ep := filter_us_ep_candidates fetch tickers 10000000000 1500000
    if df_ep.isEmpty then .noCandidates
    else .shortlist (rank big df_ep)

/-- A metadata oracle for concrete runs of the filter: the lookup for `"B"`
raises, every other lookup passes all three thresholds. -/
def fetchProbe : String → Fetch :=
  fun s => if s = "B" then Fetch.raises else Fetch.info ⟨some 1, some 1, some 1, none⟩

/-- A notification payload of 2200 characters. -/
def longContent : String := String.mk (List.replicate 2200 'a')

/-- Concrete candidate rows with YoY percentages 50.0, 50.0 and 30.0, in
input order `recA`, `recB`, `recC`. -/
def recA : CandidateRecord := ⟨"A", "Alpha", 50, 1, 100⟩

/-- Second candidate: same YoY percentage as `recA`. -/
def recB : CandidateRecord := ⟨"B", "Beta", 50, 2, 200⟩

/-- Third candidate: strictly smaller YoY percentage. -/
def recC : CandidateRecord := ⟨"C", "Gamma", 30, 3, 300⟩

/-- Fifteen filler candidates with pairwise-distinct YoY percentages 47
down to 33, already in descending order. -/
def fillers : List CandidateRecord :=
  [⟨"F01", "F01", 47, 1, 1⟩, ⟨"F02", "F02", 46, 1, 1⟩,
   ⟨"F03", "F03", 45, 1, 1⟩, ⟨"F04", "F04", 44, 1, 1⟩,
   ⟨"F05", "F05", 43, 1, 1⟩, ⟨"F06", "F06", 42, 1, 1⟩,
   ⟨"F07", "F07", 41, 1, 1⟩, ⟨"F08", "F08", 40, 1, 1⟩,
   ⟨"F09", "F09", 39, 1, 1⟩, ⟨"F10", "F10", 38, 1, 1⟩,
   ⟨"F11", "F11", 37, 1, 1⟩, ⟨"F12", "F12", 36, 1, 1⟩,
   ⟨"F13", "F13", 35, 1, 1⟩, ⟨"F14", "F14", 34, 1, 1⟩,
   ⟨"F15", "F15", 33, 1, 1⟩]

/-- A 17-row candidate table — above the introsort partitioning cutoff —
whose only tied pair is `recA, recB` (YoY 50.0 each) at the head, in that
input order. -/
def rankInput17 : List CandidateRecord := recA :: recB :: fillers

end NTRT

namespace NTRT

/-! ## Helper lemmas -/

theorem one_not_lt_thr : ¬ (1 : ℚ) < 39/100 := by norm_num

theorem processTicker_39_eval :
    processTicker "TST"
      (Fetch.info ⟨some (39/100), some 5000000000, some 1000000, none⟩)
      10000000000 1500000 = some ⟨"TST", "TST", 39, 5, 1000⟩ := by
  simp only [processTicker, pyRound, pyRoundInt, Option.getD]
  norm_num

theorem processTicker_3901_eval :
    processTicker "TST"
      (Fetch.info ⟨some (3901/10000), some 5000000000, some 1000000, none⟩)
      10000000000 1500000 = some ⟨"TST", "TST", 39, 5, 1000⟩ := by
  simp only [processTicker, pyRound, pyRoundInt, Option.getD]
  norm_num [Int.floor_eq_iff]

theorem uniqueAux_mem : ∀ (l seen : List String) (a : String),
    a ∈ uniqueAux l seen → a ∈ l ∧ a ∉ seen := by
  intro l
  induction l with
  | nil => intro seen a h; simp [uniqueAux] at h
  | cons b t ih =>
      intro seen a h
      simp only [uniqueAux] at h
      by_cases hb : b ∈ seen
      · rw [if_pos hb] at h
        obtain ⟨h1, h2⟩ := ih seen a h
        exact ⟨List.mem_cons_of_mem _ h1, h2⟩
      · rw [if_neg hb] at h
        rcases List.mem_cons.mp h with rfl | h2
        · exact ⟨List.mem_cons_self _ _, hb⟩
        · obtain ⟨h1, h3⟩ := ih (b :: seen) a h2
          exact ⟨List.mem_cons_of_mem _ h1,
            fun ha => h3 (List.mem_cons_of_mem _ ha)⟩

theorem uniqueAux_nodup : ∀ l seen : List String, (uniqueAux l seen).Nodup := by
  intro l
  induction l with
  | nil => intro seen; simp [uniqueAux]
  | cons b t ih =>
      intro seen
      simp only [uniqueAux]
      by_cases hb : b ∈ seen
      · rw [if_pos hb]; exact ih seen
      · rw [if_neg hb]
        refine List.nodup_cons.mpr ⟨?_, ih (b :: seen)⟩
        intro hmem
        exact (uniqueAux_mem t (b :: seen) b hmem).2 (List.mem_cons_self _ _)

theorem uniqueKeepFirst_mem {l : List String} {a : String}
    (h : a ∈ uniqueKeepFirst l) : a ∈ l :=
  (uniqueAux_mem l [] a h).1

theorem uniqueKeepFirst_nodup (l : List String) : (uniqueKeepFirst l).Nodup :=
  uniqueAux_nodup l []

theorem setUpdate_nodup (acc new : List String) (h : acc.Nodup) :
    (setUpdate acc new).Nodup := by
  unfold setUpdate
  refine List.nodup_append.mpr ⟨h, uniqueKeepFirst_nodup _, ?_⟩
  intro a ha hb
  have h2 := List.of_mem_filter (uniqueKeepFirst_mem hb)
  simp only [decide_not, Bool.not_eq_true', decide_eq_false_iff_not] at h2
  exact h2 ha

theorem setUpdate_mem {acc new : List String} {a : String}
    (h : a ∈ setUpdate acc new) : a ∈ acc ∨ a ∈ new := by
  unfold setUpdate at h
  rcases List.mem_append.mp h with h | h
  · exact Or.inl h
  · exact Or.inr (List.mem_of_mem_filter (uniqueKeepFirst_mem h))

theorem dateSymbols_noDot {d : Option (List String)} {s : String}
    (h : s ∈ dateSymbols d) : containsDot s = false := by
  cases d with
  | none => simp [dateSymbols] at h
  | some col =>
      have h2 := List.of_mem_filter (uniqueKeepFirst_mem h)
      simpa using h2

theorem dateSymbols_mem {d : Option (List String)} {s : String}
    (h : s ∈ dateSymbols d) : ∃ col, d = some col ∧ s ∈ col := by
  cases d with
  | none => simp [dateSymbols] at h
  | some col => exact ⟨col, rfl, List.mem_of_mem_filter (uniqueKeepFirst_mem h)⟩

theorem finnhub_httpError (key : Option String) :
    get_earnings_tickers_finnhub key .httpError = [] := by
  unfold get_earnings_tickers_finnhub
  split <;> rfl

theorem finnhub_json_none (key : Option String) :
    get_earnings_tickers_finnhub key (.json none) = [] := by
  unfold get_earnings_tickers_finnhub
  split <;> rfl

theorem finnhub_json_some (key : Option String) (syms : List String) :
    get_earnings_tickers_finnhub key (.json (some syms)) = [] ∨
    get_earnings_tickers_finnhub key (.json (some syms)) =
      uniqueKeepFirst (syms.filter (fun s => !containsDot s)) := by
  unfold get_earnings_tickers_finnhub
  split
  · exact Or.inl rfl
  · dsimp only
    split
    · exact Or.inl rfl
    · exact Or.inr rfl

theorem yahoo_fold_invariant (dates : List (Option (List String))) :
    ∀ acc : List String, acc.Nodup →
      (List.foldl (fun a d => setUpdate a (dateSymbols d)) acc dates).Nodup ∧
      ∀ s, s ∈ List.foldl (fun a d => setUpdate a (dateSymbols d)) acc dates →
        s ∈ acc ∨
          (containsDot s = false ∧ ∃ col, some col ∈ dates ∧ s ∈ col) := by
  induction dates with
  | nil => exact fun acc h => ⟨h, fun s hs => Or.inl hs⟩
  | cons d ds ih =>
      intro acc hacc
      obtain ⟨h1, h2⟩ := ih (setUpdate acc (dateSymbols d))
        (setUpdate_nodup _ _ hacc)
      rw [List.foldl_cons]
      refine ⟨h1, fun s hs => ?_⟩
      rcases h2 s hs with h | ⟨hdot, col, hcol, hmem⟩
      · rcases setUpdate_mem h with h | h
        · exact Or.inl h
        · obtain ⟨col, rfl, hmem⟩ := dateSymbols_mem h
          exact Or.inr ⟨dateSymbols_noDot h, col, List.mem_cons_self _ _, hmem⟩
      · exact Or.inr ⟨hdot, col, List.mem_cons_of_mem _ hcol, hmem⟩

theorem mem_insertAsc {α : Type _} (key : α → ℚ) (a x : α) :
    ∀ l : List α, x ∈ insertAsc key a l → x = a ∨ x ∈ l := by
  intro l
  induction l with
  | nil => intro h; simpa [insertAsc] using h
  | cons b t ih =>
      intro h
      simp only [insertAsc] at h
      split at h
      · rcases List.mem_cons.mp h with rfl | h2
        · exact Or.inl rfl
        · exact Or.inr h2
      · rcases List.mem_cons.mp h with rfl | h2
        · exact Or.inr (List.mem_cons_self _ _)
        · rcases ih h2 with h3 | h3
          · exact Or.inl h3
          · exact Or.inr (List.mem_cons_of_mem _ h3)

theorem pairwise_insertAsc {α : Type _} (key : α → ℚ) (a : α) :
    ∀ l : List α, l.Pairwise (fun x y => key x ≤ key y) →
      (insertAsc key a l).Pairwise (fun x y => key x ≤ key y) := by
  intro l
  induction l with
  | nil => intro _; simp [insertAsc]
  | cons b t ih =>
      intro h
      obtain ⟨hb, ht⟩ := List.pairwise_cons.mp h
      simp only [insertAsc]
      split
      · next hab =>
          refine List.pairwise_cons.mpr ⟨?_, h⟩
          intro x hx
          rcases List.mem_cons.mp hx with rfl | h2
          · exact le_of_lt hab
          · exact le_trans (le_of_lt hab) (hb x h2)
      · next hab =>
          refine List.pairwise_cons.mpr ⟨?_, ih ht⟩
          intro x hx
          rcases mem_insertAsc key a x t hx with rfl | h2
          · exact not_lt.mp hab
          · exact hb x h2

theorem pairwise_foldl_insert {α : Type _} (key : α → ℚ) :
    ∀ l acc : List α, acc.Pairwise (fun x y => key x ≤ key y) →
      (List.foldl (fun acc a => insertAsc key a acc) acc l).Pairwise
        (fun x y => key x ≤ key y) := by
  intro l
  induction l with
  | nil => intro acc h; exact h
  | cons a t ih =>
      intro acc h
      rw [List.foldl_cons]
      exact ih _ (pairwise_insertAsc key a acc h)

theorem sorted_insertionSortAsc {α : Type _} (key : α → ℚ) (l : List α) :
    (insertionSortAsc key l).Pairwise (fun x y => key x ≤ key y) :=
  pairwise_foldl_insert key l [] List.Pairwise.nil

theorem perm_insertAsc {α : Type _} (key : α → ℚ) (a : α) :
    ∀ l : List α, (insertAsc key a l).Perm (a :: l) := by
  intro l
  induction l with
  | nil => exact List.Perm.refl _
  | cons b t ih =>
      simp only [insertAsc]
      split
      · exact List.Perm.refl _
      · exact (ih.cons b).trans (List.Perm.swap a b t)

theorem perm_foldl_insert {α : Type _} (key : α → ℚ) :
    ∀ l acc : List α,
      (List.foldl (fun acc a => insertAsc key a acc) acc l).Perm (acc ++ l) := by
  intro l
  induction l with
  | nil => intro acc; simp
  | cons a t ih =>
      intro acc
      rw [List.foldl_cons]
      exact (ih (insertAsc key a acc)).trans
        (((perm_insertAsc key a acc).append_right t).trans
          List.perm_middle.symm)

theorem perm_insertionSortAsc {α : Type _} (key : α → ℚ) (l : List α) :
    (insertionSortAsc key l).Perm l := by
  unfold insertionSortAsc
  exact (perm_foldl_insert key l []).trans (by simp)

theorem filter_insertAsc {α : Type _} (key : α → ℚ) (a : α) (k : ℚ) :
    ∀ l : List α, l.Pairwise (fun x y => key x ≤ key y) →
      (insertAsc key a l).filter (fun c => decide (key c = k)) =
        if key a = k then
          l.filter (fun c => decide (key c = k)) ++ [a]
        else l.filter (fun c => decide (key c = k)) := by
  intro l
  induction l with
  | nil =>
      intro _
      by_cases h : key a = k
      · simp [insertAsc, List.filter, h]
      · simp [insertAsc, List.filter, h]
  | cons b t ih =>
      intro hp
      obtain ⟨hb, ht⟩ := List.pairwise_cons.mp hp
      simp only [insertAsc]
      split
      · next hab =>
          by_cases h : key a = k
          · have hnil : (b :: t).filter (fun c => decide (key c = k)) = [] := by
              rw [List.filter_eq_nil_iff]
              intro x hx
              have hbx : key b ≤ key x := by
                rcases List.mem_cons.mp hx with rfl | h2
                · exact le_refl _
                · exact hb x h2
              have h3 : k < key x := lt_of_lt_of_le (h ▸ hab) hbx
              simp [ne_of_gt h3]
            rw [if_pos h, List.filter_cons_of_pos (by simp [h]), hnil]
            rfl
          · rw [if_neg h, List.filter_cons_of_neg (by simp [h])]
      · next hab =>
          by_cases h : key a = k
          · rw [if_pos h]
            by_cases h2 : key b = k
            · rw [List.filter_cons_of_pos (by simp [h2]),
                List.filter_cons_of_pos (by simp [h2]), ih ht, if_pos h]
              rfl
            · rw [List.filter_cons_of_neg (by simp [h2]),
                List.filter_cons_of_neg (by simp [h2]), ih ht, if_pos h]
          · rw [if_neg h]
            by_cases h2 : key b = k
            · rw [List.filter_cons_of_pos (by simp [h2]),
                List.filter_cons_of_pos (by simp [h2]), ih ht, if_neg h]
            · rw [List.filter_cons_of_neg (by simp [h2]),
                List.filter_cons_of_neg (by simp [h2]), ih ht, if_neg h]

theorem filter_foldl_insert {α : Type _} (key : α → ℚ) (k : ℚ) :
    ∀ l acc : List α, acc.Pairwise (fun x y => key x ≤ key y) →
      (List.foldl (fun acc a => insertAsc key a acc) acc l).filter
          (fun c => decide (key c = k)) =
        acc.filter (fun c => decide (key c = k)) ++
          l.filter (fun c => decide (key c = k)) := by
  intro l
  induction l with
  | nil => intro acc _; simp
  | cons a t ih =>
      intro acc h
      rw [List.foldl_cons, ih _ (pairwise_insertAsc key a acc h),
        filter_insertAsc key a k acc h]
      by_cases hk : key a = k
      · rw [if_pos hk, List.filter_cons_of_pos (by simp [hk])]
        simp
      · rw [if_neg hk, List.filter_cons_of_neg (by simp [hk])]

theorem filter_insertionSortAsc {α : Type _} (key : α → ℚ) (k : ℚ)
    (l : List α) :
    (insertionSortAsc key l).filter (fun c => decide (key c = k)) =
      l.filter (fun c => decide (key c = k)) := by
  unfold insertionSortAsc
  rw [filter_foldl_insert key k l [] List.Pairwise.nil]
  rfl

theorem mem_insertAscFlip {α : Type _} (key : α → ℚ) (a x : α) :
    ∀ l : List α, x ∈ insertAscFlip key a l → x = a ∨ x ∈ l := by
  intro l
  induction l with
  | nil => intro h; simpa [insertAscFlip] using h
  | cons b t ih =>
      intro h
      simp only [insertAscFlip] at h
      split at h
      · rcases List.mem_cons.mp h with rfl | h2
        · exact Or.inl rfl
        · exact Or.inr h2
      · rcases List.mem_cons.mp h with rfl | h2
        · exact Or.inr (List.mem_cons_self _ _)
        · rcases ih h2 with h3 | h3
          · exact Or.inl h3
          · exact Or.inr (List.mem_cons_of_mem _ h3)

theorem pairwise_insertAscFlip {α : Type _} (key : α → ℚ) (a : α) :
    ∀ l : List α, l.Pairwise (fun x y => key x ≤ key y) →
      (insertAscFlip key a l).Pairwise (fun x y => key x ≤ key y) := by
  intro l
  induction l with
  | nil => intro _; simp [insertAscFlip]
  | cons b t ih =>
      intro h
      obtain ⟨hb, ht⟩ := List.pairwise_cons.mp h
      simp only [insertAscFlip]
      split
      · next hab =>
          refine List.pairwise_cons.mpr ⟨?_, h⟩
          intro x hx
          rcases List.mem_cons.mp hx with rfl | h2
          · exact hab
          · exact le_trans hab (hb x h2)
      · next hab =>
          refine List.pairwise_cons.mpr ⟨?_, ih ht⟩
          intro x hx
          rcases mem_insertAscFlip key a x t hx with rfl | h2
          · exact le_of_lt (not_le.mp hab)
          · exact hb x h2

theorem perm_insertAscFlip {α : Type _} (key : α → ℚ) (a : α) :
    ∀ l : List α, (insertAscFlip key a l).Perm (a :: l) := by
  intro l
  induction l with
  | nil => exact List.Perm.refl _
  | cons b t ih =>
      simp only [insertAscFlip]
      split
      · exact List.Perm.refl _
      · exact (ih.cons b).trans (List.Perm.swap a b t)

theorem pairwise_foldl_insertFlip {α : Type _} (key : α → ℚ) :
    ∀ l acc : List α, acc.Pairwise (fun x y => key x ≤ key y) →
      (List.foldl (fun acc a => insertAscFlip key a acc) acc l).Pairwise
        (fun x y => key x ≤ key y) := by
  intro l
  induction l with
  | nil => intro acc h; exact h
  | cons a t ih =>
      intro acc h
      rw [List.foldl_cons]
      exact ih _ (pairwise_insertAscFlip key a acc h)

theorem perm_foldl_insertFlip {α : Type _} (key : α → ℚ) :
    ∀ l acc : List α,
      (List.foldl (fun acc a => insertAscFlip key a acc) acc l).Perm
        (acc ++ l) := by
  intro l
  induction l with
  | nil => intro acc; simp
  | cons a t ih =>
      intro acc
      rw [List.foldl_cons]
      exact (ih (insertAscFlip key a acc)).trans
        (((perm_insertAscFlip key a acc).append_right t).trans
          List.perm_middle.symm)

theorem insertionSortAscFlip_sorts {α : Type _} (key : α → ℚ) :
    SortsAscending key (insertionSortAscFlip key) := by
  intro l
  constructor
  · exact (perm_foldl_insertFlip key l []).trans (by simp)
  · exact pairwise_foldl_insertFlip key l [] List.Pairwise.nil

theorem bigFlip_sorts :
    SortsAscending (fun c : CandidateRecord => c.yoyPct) bigFlip :=
  insertionSortAscFlip_sorts _

theorem bigStable_sorts :
    SortsAscending (fun c : CandidateRecord => c.yoyPct) bigStable := by
  intro l
  exact ⟨perm_insertionSortAsc _ l, sorted_insertionSortAsc _ l⟩

theorem npArgsortAsc_perm {α : Type _} (big : List α → List α)
    (key : α → ℚ) (hbig : SortsAscending key big) (l : List α) :
    (npArgsortAsc big key l).Perm l := by
  unfold npArgsortAsc
  split
  · exact perm_insertionSortAsc key l
  · exact (hbig l).1

theorem npArgsortAsc_sorted {α : Type _} (big : List α → List α)
    (key : α → ℚ) (hbig : SortsAscending key big) (l : List α) :
    (npArgsortAsc big key l).Pairwise (fun x y => key x ≤ key y) := by
  unfold npArgsortAsc
  split
  · exact sorted_insertionSortAsc key l
  · exact (hbig l).2

theorem sorted_sort_values_desc {α : Type _} (big : List α → List α)
    (key : α → ℚ) (hbig : SortsAscending key big) (l : List α) :
    (sort_values_desc big key l).Pairwise (fun x y => key y ≤ key x) := by
  unfold sort_values_desc
  rw [List.pairwise_reverse]
  exact npArgsortAsc_sorted big key hbig l.reverse

theorem sort_values_desc_perm {α : Type _} (big : List α → List α)
    (key : α → ℚ) (hbig : SortsAscending key big) (l : List α) :
    (sort_values_desc big key l).Perm l := by
  unfold sort_values_desc
  exact (List.reverse_perm _).trans
    ((npArgsortAsc_perm big key hbig l.reverse).trans (List.reverse_perm l))

theorem filter_sort_values_desc_small {α : Type _} (big : List α → List α)
    (key : α → ℚ) (k : ℚ) (l : List α) (hlen : l.length ≤ 16) :
    (sort_values_desc big key l).filter (fun c => decide (key c = k)) =
      l.filter (fun c => decide (key c = k)) := by
  unfold sort_values_desc npArgsortAsc
  rw [if_pos (by simpa using hlen), List.filter_reverse,
    filter_insertionSortAsc key k l.reverse]
  simp

/-! ## Claim theorems -/

/-- C9: the coordinator's date window (lines 103-105) is anchored at the
current time shifted to the fixed UTC-5 reference clock; its start date is
exactly one calendar day before its end date, so start ≤ end always holds
and the window spans two (within the claimed one-to-two) calendar days. -/
theorem C9_date_window (utcNow : ℤ) :
    windowStart utcNow + 1 = windowEnd utcNow ∧
    windowStart utcNow ≤ windowEnd utcNow := by
  unfold windowStart windowEnd dateOf refNow secondsPerDay
  omega

/-- C2: counterexample.  The claim states that a success-with-zero-tickers
result from the primary adapter is terminal and does not trigger fallback;
in the code (`if not tickers:`, line 111) an empty primary result is falsy,
the secondary adapter is consulted, and its tickers are returned instead of
the empty set the claim predicts. -/
theorem C2_empty_primary_triggers_fallback :
    coordinate (some []) ["NVDA"] = ["NVDA"] ∧ (["NVDA"] : List String) ≠ [] :=
  ⟨rfl, by decide⟩

/-- C2 (amended): the coordinator stops at the first adapter returning a
non-empty TickerSet, but it proceeds to the next adapter whenever the
previous result is falsy — `Unavailable` (None) or merely empty alike, so a
success-with-zero-tickers primary result also triggers fallback; if every
adapter yields empty or `Unavailable` it returns an empty TickerSet. -/
theorem C2_coordinator_fallback :
    (∀ l s : List String, l ≠ [] → coordinate (some l) s = l) ∧
    (∀ s : List String, coordinate none s = s) ∧
    (∀ s : List String, coordinate (some []) s = s) ∧
    coordinate none [] = [] ∧ coordinate (some []) [] = [] := by
  refine ⟨fun l s h => ?_, fun s => rfl, fun s => rfl, rfl, rfl⟩
  cases l with
  | nil => exact absurd rfl h
  | cons a t => rfl

/-- C2: witness for the amended theorem at a concrete non-empty primary
result. -/
theorem C2_coordinator_fallback_witness :
    coordinate (some ["NVDA"]) ["AMD"] = ["NVDA"] :=
  C2_coordinator_fallback.1 ["NVDA"] ["AMD"] (by decide)

/-- C4: counterexample.  With every credential absent (`FINNHUB_API_KEY`
unset, and the external world failing everywhere) the process does not
abort at startup as the claim requires: the script has no
mandatory-credential check and runs to its "no data" completion. -/
theorem C4_no_abort_counterexample :
    runMain bigStable none [none, none] FinnhubResponse.httpError
      (fun _ => Fetch.raises) = RunOutcome.noData ∧
    RunOutcome.noData ≠ RunOutcome.startupAbort :=
  ⟨rfl, by decide⟩

/-- C4 (amended): no credential is mandatory.  The `__main__` flow never
aborts at startup for any environment, and the only API credential read
(`FINNHUB_API_KEY`, the secondary adapter's key) degrades gracefully when
absent: the secondary adapter short-circuits to an empty result regardless
of the network, and the run still completes. -/
theorem C4_startup_never_aborts :
    (∀ (big : List CandidateRecord → List CandidateRecord)
        (key : Option String) (dates : List (Option (List String)))
        (resp : FinnhubResponse) (fetch : String → Fetch),
        (runMain big key dates resp fetch).isStartupAbort = false) ∧
    (∀ resp, get_earnings_tickers_finnhub none resp = []) := by
  constructor
  · intro big key dates resp fetch
    simp only [runMain]
    split
    · rfl
    · split <;> rfl
  · intro resp; rfl

/-- C5: the market-capitalization and average-volume guards (lines 132-140)
are inclusive upper bounds: with the growth test passed, a ticker sitting
exactly at both ceilings is included; market cap one unit above its ceiling
is excluded; volume one unit above its ceiling is excluded; and a missing
market cap or volume excludes the ticker. -/
theorem C5_cap_volume_bounds (max_cap max_vol : ℚ) (t : String)
    (nm : Option String) (g mc v : ℚ) (hg : ¬ g < 39/100) :
    (processTicker t (Fetch.info ⟨some g, some max_cap, some max_vol, nm⟩)
        max_cap max_vol).isSome = true ∧
    processTicker t (Fetch.info ⟨some g, some (max_cap + 1), some v, nm⟩)
        max_cap max_vol = none ∧
    processTicker t (Fetch.info ⟨some g, some mc, some (max_vol + 1), nm⟩)
        max_cap max_vol = none ∧
    processTicker t (Fetch.info ⟨some g, none, some v, nm⟩)
        max_cap max_vol = none ∧
    processTicker t (Fetch.info ⟨some g, some mc, none, nm⟩)
        max_cap max_vol = none := by
  refine ⟨?_, ?_, ?_, ?_, ?_⟩
  · simp [processTicker, if_neg hg, if_neg (lt_irrefl max_cap),
      if_neg (lt_irrefl max_vol)]
  · simp only [processTicker, if_neg hg]
    rw [if_pos (by linarith : max_cap < max_cap + 1)]
  · simp only [processTicker, if_neg hg]
    by_cases h : max_cap < mc
    · rw [if_pos h]
    · rw [if_neg h, if_pos (by linarith : max_vol < max_vol + 1)]
  · simp only [processTicker, if_neg hg]
  · simp only [processTicker, if_neg hg]
    by_cases h : max_cap < mc
    · rw [if_pos h]
    · rw [if_neg h]

/-- C5: witness at the default ceilings (market cap 10,000,000,000 and
average volume 1,500,000) with growth 1.0. -/
theorem C5_cap_volume_bounds_witness :
    (processTicker "TST"
        (Fetch.info ⟨some 1, some 10000000000, some 1500000, none⟩)
        10000000000 1500000).isSome = true ∧
    processTicker "TST"
        (Fetch.info ⟨some 1, some (10000000000 + 1), some 7, none⟩)
        10000000000 1500000 = none ∧
    processTicker "TST" (Fetch.info ⟨some 1, some 5, some (1500000 + 1), none⟩)
        10000000000 1500000 = none ∧
    processTicker "TST" (Fetch.info ⟨some 1, none, some 7, none⟩)
        10000000000 1500000 = none ∧
    processTicker "TST" (Fetch.info ⟨some 1, some 5, none, none⟩)
        10000000000 1500000 = none :=
  C5_cap_volume_bounds 10000000000 1500000 "TST" none 1 5 7 one_not_lt_thr

/-- C1: code bug at the growth boundary.  The guard `rev_growth < 0.39`
(line 129) admits a ticker whose revenue growth is exactly 0.39, although
the claim — and the function's own docstring and inline comment
(`revenueGrowth > 0.39`) — require strict exceedance: at the failing input
(revenueGrowth 0.39, market cap 5e9, volume 1e6) the code includes the
ticker instead of excluding it.  The claim's other boundary point holds:
growth 0.3901 is included. -/
theorem C1_growth_boundary_code_bug :
    filter_us_ep_candidates
        (fun _ => Fetch.info ⟨some (39/100), some 5000000000, some 1000000, none⟩)
        ["TST"] 10000000000 1500000 = [⟨"TST", "TST", 39, 5, 1000⟩] ∧
    filter_us_ep_candidates
        (fun _ => Fetch.info ⟨some (3901/10000), some 5000000000, some 1000000, none⟩)
        ["TST"] 10000000000 1500000 = [⟨"TST", "TST", 39, 5, 1000⟩] := by
  constructor <;>
    simp [filter_us_ep_candidates, processTicker_39_eval, processTicker_3901_eval]

/-- C8: before delivery, content longer than 1950 characters is clipped to
its first 1950 characters with the fixed truncation suffix appended
(lines 164-165); content of length at most 1950 is delivered unchanged; and
an absent webhook URL makes delivery a no-op (lines 159-161). -/
theorem C8_truncation (u : String) (hu : u.isEmpty = false) (c : String) :
    (1950 < c.length →
      send_to_discord (some u) c = some (c.take 1950 ++ truncationSuffix)) ∧
    (c.length ≤ 1950 → send_to_discord (some u) c = some c) ∧
    send_to_discord none c = none := by
  refine ⟨fun h => ?_, fun h => ?_, rfl⟩
  · simp [send_to_discord, pyStrFalsy, hu, h]
  · simp [send_to_discord, pyStrFalsy, hu, Nat.not_lt.mpr h]

set_option maxRecDepth 8000 in
/-- C8: witness at the claimed scenario — a 2200-character payload is
delivered as its first 1950 characters plus the truncation suffix. -/
theorem C8_truncation_witness :
    send_to_discord (some "hook") longContent =
      some (longContent.take 1950 ++ truncationSuffix) :=
  (C8_truncation "hook" (by decide) longContent).1
    (by simp [longContent, String.length])

/-- C7: failure isolation in the enrichment filter (lines 122-152).  A
ticker whose metadata lookup raises, or whose metadata misses any of the
three threshold fields, contributes no CandidateRecord, and the records
produced for the surrounding tickers are exactly those produced had the
failing ticker not been present: the batch is unaffected and no exception
escapes. -/
theorem C7_per_ticker_isolation (fetch : String → Fetch) (max_cap max_vol : ℚ)
    (pre post : List String) (t : String)
    (h : fetch t = Fetch.raises ∨ ∃ i, fetch t = Fetch.info i ∧
        (i.revenueGrowth = none ∨ i.marketCap = none ∨ i.averageVolume = none)) :
    filter_us_ep_candidates fetch (pre ++ t :: post) max_cap max_vol =
      filter_us_ep_candidates fetch pre max_cap max_vol ++
        filter_us_ep_candidates fetch post max_cap max_vol := by
  have hnone : processTicker t (fetch t) max_cap max_vol = none := by
    rcases h with h | ⟨i, hi, hf⟩
    · rw [h]; rfl
    · rw [hi]
      obtain ⟨rg, mc, av, nm⟩ := i
      simp only [TickerInfo.revenueGrowth, TickerInfo.marketCap,
        TickerInfo.averageVolume] at hf
      rcases hf with rfl | rfl | rfl
      · rfl
      · cases rg with
        | none => rfl
        | some g =>
            simp only [processTicker]
            split
            · rfl
            · rfl
      · cases rg with
        | none => rfl
        | some g =>
            simp only [processTicker]
            split
            · rfl
            · cases mc with
              | none => rfl
              | some m =>
                  split
                  · rfl
                  · split <;> rfl
  simp [filter_us_ep_candidates, List.filterMap_append, List.filterMap_cons, hnone]

/-- C7: witness — in the batch `["A", "B", "C"]` the lookup for `"B"`
raises; the result is exactly the concatenation of the results for `["A"]`
and `["C"]`. -/
theorem C7_per_ticker_isolation_witness :
    filter_us_ep_candidates fetchProbe ["A", "B", "C"] 10000000000 1500000 =
      filter_us_ep_candidates fetchProbe ["A"] 10000000000 1500000 ++
        filter_us_ep_candidates fetchProbe ["C"] 10000000000 1500000 :=
  C7_per_ticker_isolation fetchProbe 10000000000 1500000 ["A"] ["C"] "B"
    (Or.inl (by decide))

/-- C6: for every symbol in the output of either provider adapter, the
symbol contains no `"."`; outputs are deduplicated; and symbols are passed
through unmodified (case preserved as-is): every output symbol is literally
one of the symbols the provider supplied. -/
theorem C6_adapter_symbol_invariants :
    (∀ (dates : List (Option (List String))) (l : List String),
        get_earnings_tickers_yahoo dates = some l →
        (∀ s, s ∈ l →
          containsDot s = false ∧ ∃ col, some col ∈ dates ∧ s ∈ col) ∧
        l.Nodup) ∧
    (∀ (key : Option String) (resp : FinnhubResponse),
        (∀ s, s ∈ get_earnings_tickers_finnhub key resp →
          containsDot s = false ∧
            ∃ syms, resp = FinnhubResponse.json (some syms) ∧ s ∈ syms) ∧
        (get_earnings_tickers_finnhub key resp).Nodup) := by
  constructor
  · intro dates l h
    simp only [get_earnings_tickers_yahoo] at h
    split at h
    · cases h
    · injection h with h
      subst h
      obtain ⟨h1, h2⟩ := yahoo_fold_invariant dates [] List.nodup_nil
      refine ⟨fun s hs => ?_, h1⟩
      rcases h2 s hs with h | h
      · cases h
      · exact h
  · intro key resp
    cases resp with
    | httpError =>
        rw [finnhub_httpError]
        exact ⟨fun s hs => absurd hs (List.not_mem_nil s), List.nodup_nil⟩
    | json osyms =>
        cases osyms with
        | none =>
            rw [finnhub_json_none]
            exact ⟨fun s hs => absurd hs (List.not_mem_nil s), List.nodup_nil⟩
        | some syms =>
            rcases finnhub_json_some key syms with h | h
            · rw [h]
              exact ⟨fun s hs => absurd hs (List.not_mem_nil s), List.nodup_nil⟩
            · rw [h]
              refine ⟨fun s hs => ?_, uniqueKeepFirst_nodup _⟩
              have h2 := List.of_mem_filter (uniqueKeepFirst_mem hs)
              exact ⟨by simpa using h2, syms, rfl,
                List.mem_of_mem_filter (uniqueKeepFirst_mem hs)⟩

/-- C6: witness — from the parsed symbol column
`["AAPL", "BRK.B", "AAPL"]` the scraping adapter outputs exactly
`["AAPL"]`: the dotted symbol is dropped and the duplicate removed. -/
theorem C6_adapter_symbol_invariants_witness :
    (∀ s, s ∈ (["AAPL"] : List String) →
      containsDot s = false ∧
        ∃ col, some col ∈ [some ["AAPL", "BRK.B", "AAPL"]] ∧ s ∈ col) ∧
    (["AAPL"] : List String).Nodup :=
  C6_adapter_symbol_invariants.1 [some ["AAPL", "BRK.B", "AAPL"]] ["AAPL"]
    (by decide)

/-- C10: the scraping adapter returns Python `None` or a non-empty list,
never an empty list (lines 68-72), so at the coordinator boundary a genuine
zero-ticker day cannot be told apart from provider unavailability: the
fallback branch maps `None` and an empty list to the same result. -/
theorem C10_yahoo_never_empty :
    (∀ (dates : List (Option (List String))) (l : List String),
        get_earnings_tickers_yahoo dates = some l → l ≠ []) ∧
    (∀ s : List String, coordinate none s = coordinate (some []) s) := by
  constructor
  · intro dates l h
    simp only [get_earnings_tickers_yahoo] at h
    split at h
    · cases h
    · next he =>
        injection h with h
        intro hnil
        rw [h, hnil] at he
        exact he rfl
  · intro s; rfl

/-- C10: witness — the adapter output for a one-symbol column is a
non-empty list. -/
theorem C10_yahoo_never_empty_witness :
    get_earnings_tickers_yahoo [some ["AAPL"]] = some ["AAPL"] ∧
    (["AAPL"] : List String) ≠ [] :=
  ⟨by decide, C10_yahoo_never_empty.1 [some ["AAPL"]] ["AAPL"] (by decide)⟩

/-- C3: counterexample.  The claim asserts unconditional tie preservation,
but pandas' default sort kind (`quicksort`, numpy introsort) guarantees
only an ascending-sorted permutation once the array exceeds the 16-element
insertion-sort cutoff — numpy documents the kind as not stable there.  On
the 17-row table `rankInput17`, whose only tied pair `recA, recB` (YoY 50.0
each) heads the input in that order, the admissible large-array behavior
`bigFlip` — an ascending-sorted permutation, as the first conjunct proves —
makes the ranking deliver the tied pair reversed, `recB` before `recA`:
tie preservation is not entailed by the code. -/
theorem C3_quicksort_ties_counterexample :
    SortsAscending (fun c : CandidateRecord => c.yoyPct) bigFlip ∧
    rankInput17.length = 17 ∧
    sort_values_desc bigFlip (fun c => c.yoyPct) rankInput17 =
      recB :: recA :: fillers ∧
    recA ≠ recB := by
  refine ⟨bigFlip_sorts, by decide, ?_, by decide⟩
  norm_num [sort_values_desc, npArgsortAsc, bigFlip, insertionSortAscFlip,
    insertAscFlip, rankInput17, fillers, recA, recB]

/-- C3 (amended): for every large-array argsort behavior satisfying numpy's
documented contract, the ranking step maps empty input to empty output,
caps the shortlist at 10, sorts descending by the YoY percentage, and only
permutes the candidate rows; tie preservation (the stable-sort part of the
claim) holds for candidate tables of at most 16 rows — the regime where the
quicksort kind is a plain stable insertion sort and pandas' double reversal
preserves its stability — and in particular candidates with YoY
`[50.0, 50.0, 30.0]` in input order `recA, recB, recC` come out in exactly
that order.  Beyond 16 rows tie order is not guaranteed (see the
counterexample). -/
theorem C3_ranking_amended
    (big : List CandidateRecord → List CandidateRecord)
    (hbig : SortsAscending (fun c : CandidateRecord => c.yoyPct) big) :
    rank big [] = [] ∧
    (∀ l : List CandidateRecord, (rank big l).length ≤ 10) ∧
    (∀ l : List CandidateRecord,
        (rank big l).Pairwise (fun a b => b.yoyPct ≤ a.yoyPct)) ∧
    (∀ l : List CandidateRecord,
        (sort_values_desc big (fun c => c.yoyPct) l).Perm l) ∧
    (∀ (l : List CandidateRecord) (k : ℚ), l.length ≤ 16 →
        (sort_values_desc big (fun c => c.yoyPct) l).filter
            (fun c => decide (c.yoyPct = k)) =
          l.filter (fun c => decide (c.yoyPct = k))) ∧
    rank big [recA, recB, recC] = [recA, recB, recC] := by
  refine ⟨rfl, fun l => ?_, fun l => ?_,
    fun l => sort_values_desc_perm big (fun c => c.yoyPct) hbig l,
    fun l k hlen =>
      filter_sort_values_desc_small big (fun c => c.yoyPct) k l hlen, ?_⟩
  · exact List.length_take_le _ _
  · exact List.Pairwise.sublist (List.take_sublist _ _)
      (sorted_sort_values_desc big (fun c => c.yoyPct) hbig l)
  · norm_num [rank, sort_values_desc, npArgsortAsc, insertionSortAsc,
      insertAsc, recA, recB, recC]

/-- C3: witness for the amended theorem — the contract hypothesis is
discharged with the fully stable instantiation, and the small-table
stability leg is exercised on a concrete two-row tied table. -/
theorem C3_ranking_amended_witness :
    (sort_values_desc bigStable (fun c : CandidateRecord => c.yoyPct)
        [recA, recB]).filter (fun c => decide (c.yoyPct = 50)) =
      [recA, recB].filter (fun c => decide (c.yoyPct = 50)) :=
  (C3_ranking_amended bigStable bigStable_sorts).2.2.2.2.1
    [recA, recB] 50 (by decide)

end NTRT
